import Mathlib

/-!
Verification of the goclient agent orchestration loop.

Go strings are modelled as `List Char`; the stdlib helpers of package
`strings` that the program uses (`Index`, `LastIndex`, `TrimSpace`,
`Fields`, `Contains`, `HasSuffix`) are embedded below as executable
functions on `List Char`.
-/

set_option maxRecDepth 20000
set_option maxHeartbeats 1000000

/-- Boolean test that `pat` is a prefix of the second list (models the
prefix comparison used by Go's `strings.Index` / `strings.LastIndex`). -/
def leadsWith : List Char → List Char → Bool
  | [], _ => true
  | _ :: _, [] => false
  | p :: ps, c :: cs => decide (p = c) && leadsWith ps cs

/-- Index of the first occurrence of `pat` (models `strings.Index`;
`none` stands for Go's `-1`). -/
def goIndexAux (pat : List Char) : List Char → Option Nat
  | [] => if leadsWith pat [] then some 0 else none
  | c :: t =>
      if leadsWith pat (c :: t) then some 0
      else (goIndexAux pat t).map (fun n => n + 1)

/-- Index of the last occurrence of `pat` (models `strings.LastIndex`). -/
def goLastIndexAux (pat : List Char) : List Char → Option Nat
  | [] => if leadsWith pat [] then some 0 else none
  | c :: t =>
      match goLastIndexAux pat t with
      | some j => some (j + 1)
      | none => if leadsWith pat (c :: t) then some 0 else none

def goIndex (s pat : List Char) : Option Nat := goIndexAux pat s

def goLastIndex (s pat : List Char) : Option Nat := goLastIndexAux pat s

/-- Models `strings.Contains`. -/
def goContains (s pat : List Char) : Bool := (goIndexAux pat s).isSome

/-- Models `strings.HasSuffix` (via reversal). -/
def goHasSuffixB (s pat : List Char) : Bool := leadsWith pat.reverse s.reverse

/-- The white-space predicate of Go's `unicode.IsSpace`, which
`strings.TrimSpace` and `strings.Fields` use. -/
def isGoSpace (c : Char) : Bool :=
  c = ' ' || c = '\t' || c = '\n' || c.toNat = 11 || c.toNat = 12 || c = '\r' ||
  c.toNat = 0x85 || c.toNat = 0xA0 || c.toNat = 0x1680 ||
  (0x2000 ≤ c.toNat && c.toNat ≤ 0x200A) ||
  c.toNat = 0x2028 || c.toNat = 0x2029 || c.toNat = 0x202F || c.toNat = 0x205F ||
  c.toNat = 0x3000

/-- Models `strings.TrimSpace`. -/
def goTrimSpace (s : List Char) : List Char :=
  ((s.dropWhile isGoSpace).reverse.dropWhile isGoSpace).reverse

/-- Helper for `countFields`; the flag records whether the scan is
currently inside a field. -/
def countFieldsAux : List Char → Bool → Nat
  | [], _ => 0
  | c :: t, inField =>
      if isGoSpace c then countFieldsAux t false
      else (if inField then 0 else 1) + countFieldsAux t true

/-- Models `len(strings.Fields(s))`, the approximate token count used by
`Agent.Run` in main.go. -/
def countFields (s : List Char) : Nat := countFieldsAux s false

def openParen : Char := '('

def closeParen : Char := ')'

/-- The single-quote character, used in the dispatcher's error strings. -/
def apos : List Char := [Char.ofNat 39]

/-- The literal marker `tool: ` that `extractToolCall` scans for. -/
def toolMarker : List Char := ("tool: ").data

/-- Embedding of `extractToolCall` from main.go (lines 454-509): find the
last `tool: ` marker, trim the text after it, locate the first `(` and
the last `)`, and return the call span `name(args)`, or the empty list
when no call is present. -/
def extractToolCall (response : List Char) : List Char :=
  match goLastIndex response toolMarker with
  | none => []
  | some lastIdx =>
      let potentialCall := response.drop (lastIdx + toolMarker.length)
      let trimmedCall := goTrimSpace potentialCall
      match goIndex trimmedCall [openParen] with
      | none => []
      | some openParenIdx =>
          match goLastIndex trimmedCall [closeParen] with
          | none => []
          | some closeParenIdx =>
              if closeParenIdx < openParenIdx then []
              else
                let finalCall := trimmedCall.take (closeParenIdx + 1)
                if goContains finalCall [openParen] && goHasSuffixB finalCall [closeParen] then
                  finalCall
                else []

/-- Claim-side rendering of the Extractor heuristic of spec section 4.3,
written from the claim's words: last marker occurrence wins; the
candidate is the trimmed text after the marker; the name is the prefix
before the first `(`; arguments run up to the last `)` at or after that
`(` (the span through that `)` is returned); `none` is NoCall. -/
def extractorSpec (response : List Char) : Option (List Char) :=
  match goLastIndex response toolMarker with
  | none => none
  | some lastIdx =>
      let cand := goTrimSpace (response.drop (lastIdx + toolMarker.length))
      match goIndex cand [openParen] with
      | none => none
      | some o =>
          match goLastIndex (cand.drop o) [closeParen] with
          | none => none
          | some j => some (cand.take (o + j + 1))

theorem leadsWith_nil_iff (pat : List Char) : leadsWith pat [] = true ↔ pat = [] := by
  cases pat <;> simp [leadsWith]

theorem goIndexAux_none_iff (pat : List Char) :
    ∀ s : List Char, goIndexAux pat s = none ↔ goLastIndexAux pat s = none := by
  intro s
  induction s with
  | nil => simp [goIndexAux, goLastIndexAux]
  | cons c t ih =>
      by_cases hlw : leadsWith pat (c :: t) = true
      · cases hlast : goLastIndexAux pat t with
        | none => simp [goIndexAux, goLastIndexAux, hlw, hlast]
        | some j => simp [goIndexAux, goLastIndexAux, hlw, hlast]
      · cases hlast : goLastIndexAux pat t with
        | none =>
            simp [goIndexAux, goLastIndexAux, hlw, hlast, Option.map_eq_none', ih]
        | some j =>
            simp [goIndexAux, goLastIndexAux, hlw, hlast, Option.map_eq_none', ih]

theorem goLastIndexAux_drop (pat : List Char) (hne : pat ≠ []) :
    ∀ (o : Nat) (s : List Char),
      goLastIndexAux pat (s.drop o) =
        (goLastIndexAux pat s).bind (fun c => if o ≤ c then some (c - o) else none)
  | 0, s => by cases h : goLastIndexAux pat s <;> simp [h]
  | o + 1, [] => by
      have hlw : leadsWith pat [] = false := by
        cases hp : leadsWith pat []
        · rfl
        · exact absurd ((leadsWith_nil_iff pat).mp hp) hne
      simp [goLastIndexAux, hlw]
  | o + 1, c :: t => by
      have ih := goLastIndexAux_drop pat hne o t
      rw [List.drop_succ_cons, ih]
      cases hlast : goLastIndexAux pat t with
      | some j =>
          simp only [goLastIndexAux, hlast, Option.bind_some]
          by_cases hoj : o ≤ j
          · simp [hoj, Nat.succ_le_succ hoj, Nat.succ_sub_succ]
          · have h2 : ¬ (o + 1 ≤ j + 1) := fun h => hoj (Nat.le_of_succ_le_succ h)
            simp [hoj, h2]
      | none =>
          simp only [goLastIndexAux, hlast, Option.bind_none]
          by_cases hlw : leadsWith pat (c :: t) = true
          · simp [hlw]
          · simp [hlw]

theorem goLastIndexAux_some_lw (pat : List Char) :
    ∀ (s : List Char) (i : Nat),
      goLastIndexAux pat s = some i → leadsWith pat (s.drop i) = true := by
  intro s
  induction s with
  | nil =>
      intro i h
      by_cases hlw : leadsWith pat [] = true
      · simp [goLastIndexAux, hlw] at h
        subst h
        simpa using hlw
      · simp [goLastIndexAux, hlw] at h
  | cons c t ih =>
      intro i h
      cases hlast : goLastIndexAux pat t with
      | some j =>
          simp [goLastIndexAux, hlast] at h
          subst h
          simpa [List.drop_succ_cons] using ih j hlast
      | none =>
          by_cases hlw : leadsWith pat (c :: t) = true
          · simp [goLastIndexAux, hlast, hlw] at h
            subst h
            simpa using hlw
          · simp [goLastIndexAux, hlast, hlw] at h

theorem goIndexAux_some_lw (pat : List Char) :
    ∀ (s : List Char) (i : Nat),
      goIndexAux pat s = some i → leadsWith pat (s.drop i) = true := by
  intro s
  induction s with
  | nil =>
      intro i h
      by_cases hlw : leadsWith pat [] = true
      · simp [goIndexAux, hlw] at h
        subst h
        simpa using hlw
      · simp [goIndexAux, hlw] at h
  | cons c t ih =>
      intro i h
      by_cases hlw : leadsWith pat (c :: t) = true
      · simp [goIndexAux, hlw] at h
        subst h
        simpa using hlw
      · simp [goIndexAux, hlw] at h
        obtain ⟨j, hj, rfl⟩ := h
        simpa [List.drop_succ_cons] using ih j hj

theorem goIndexAux_none_lw (pat : List Char) :
    ∀ (s : List Char), goIndexAux pat s = none →
      ∀ j, leadsWith pat (s.drop j) = false := by
  intro s
  induction s with
  | nil =>
      intro h j
      by_cases hlw : leadsWith pat [] = true
      · simp [goIndexAux, hlw] at h
      · simpa using hlw
  | cons c t ih =>
      intro h j
      by_cases hlw : leadsWith pat (c :: t) = true
      · simp [goIndexAux, hlw] at h
      · have ht : goIndexAux pat t = none := by
          simp [goIndexAux, hlw, Option.map_eq_none'] at h
          exact h
        cases j with
        | zero => simpa using hlw
        | succ j => simpa [List.drop_succ_cons] using ih ht j

theorem leadsWith_single_cons (a : Char) (rest : List Char) :
    leadsWith [a] (a :: rest) = true := by
  simp [leadsWith]

theorem drop_cons_of_lw_single {a : Char} {s : List Char} {i : Nat}
    (h : leadsWith [a] (s.drop i) = true) : ∃ rest, s.drop i = a :: rest := by
  cases hd : s.drop i with
  | nil => rw [hd] at h; simp [leadsWith] at h
  | cons b rest =>
      rw [hd] at h
      simp [leadsWith] at h
      exact ⟨rest, by rw [h]⟩

theorem goContains_take_of_idx (a : Char) (s : List Char) (o k : Nat)
    (h : goIndexAux [a] s = some o) (hk : o < k) :
    goContains (s.take k) [a] = true := by
  have hlw := goIndexAux_some_lw [a] s o h
  obtain ⟨rest, hrest⟩ := drop_cons_of_lw_single hlw
  cases hcon : goIndexAux [a] (s.take k) with
  | some j => simp [goContains, hcon]
  | none =>
      exfalso
      have hfalse := goIndexAux_none_lw [a] (s.take k) hcon o
      rw [List.drop_take, hrest] at hfalse
      cases hko : k - o with
      | zero => omega
      | succ m =>
          rw [hko] at hfalse
          simp [leadsWith] at hfalse

theorem goHasSuffixB_take_of_lastIdx (a : Char) (s : List Char) (c : Nat)
    (h : goLastIndexAux [a] s = some c) :
    goHasSuffixB (s.take (c + 1)) [a] = true := by
  have hlw := goLastIndexAux_some_lw [a] s c h
  obtain ⟨rest, hrest⟩ := drop_cons_of_lw_single hlw
  have htake : s.take (c + 1) = s.take c ++ [a] := by
    rw [List.take_add s c 1, hrest]
    simp
  rw [htake]
  simp [goHasSuffixB, leadsWith]

theorem extractToolCall_eq_spec (r : List Char) :
    extractToolCall r = (extractorSpec r).getD [] := by
  simp only [extractToolCall, extractorSpec]
  cases hm : goLastIndex r toolMarker with
  | none => rfl
  | some i =>
      dsimp only
      cases ho : goIndex (goTrimSpace (r.drop (i + toolMarker.length))) [openParen] with
      | none => rfl
      | some o =>
          dsimp only
          cases hc : goLastIndex (goTrimSpace (r.drop (i + toolMarker.length))) [closeParen] with
          | none =>
              have hdrop :
                  goLastIndex ((goTrimSpace (r.drop (i + toolMarker.length))).drop o) [closeParen]
                    = none := by
                show goLastIndexAux [closeParen] _ = none
                rw [goLastIndexAux_drop [closeParen] (by simp) o]
                rw [show goLastIndexAux [closeParen] (goTrimSpace (r.drop (i + toolMarker.length)))
                      = none from hc]
                rfl
              rw [hdrop]
              rfl
          | some c =>
              have hdrop :
                  goLastIndex ((goTrimSpace (r.drop (i + toolMarker.length))).drop o) [closeParen]
                    = if o ≤ c then some (c - o) else none := by
                show goLastIndexAux [closeParen] _ = _
                rw [goLastIndexAux_drop [closeParen] (by simp) o]
                rw [show goLastIndexAux [closeParen] (goTrimSpace (r.drop (i + toolMarker.length)))
                      = some c from hc]
                rfl
              rw [hdrop]
              by_cases hoc : c < o
              · have : ¬ (o ≤ c) := by omega
                simp [hoc, this]
              · have hle : o ≤ c := by omega
                have hcont := goContains_take_of_idx openParen
                  (goTrimSpace (r.drop (i + toolMarker.length))) o (c + 1) ho (by omega)
                have hsuf := goHasSuffixB_take_of_lastIdx closeParen
                  (goTrimSpace (r.drop (i + toolMarker.length))) c hc
                have hco : o + (c - o) + 1 = c + 1 := by omega
                simp [hoc, hle, hcont, hsuf, hco]

theorem extractToolCall_of_no_marker (r : List Char)
    (h : goContains r toolMarker = false) : extractToolCall r = [] := by
  have h1 : goIndexAux toolMarker r = none := by
    cases hx : goIndexAux toolMarker r with
    | none => rfl
    | some v => simp [goContains, hx] at h
  have h2 : goLastIndexAux toolMarker r = none :=
    (goIndexAux_none_iff toolMarker r).mp h1
  simp [extractToolCall, goLastIndex, h2]

/-- C4: the Tool-Call Extractor follows exactly the specified heuristic —
the last `tool: ` marker wins (so with two markers the second occurrence
is selected), the candidate is the trimmed text after the marker, the
call span runs from the name prefix before the first `(` through the
last `)` at or after that `(`, and NoCall (the empty result, not an
error) is returned when the marker is absent, when no `(` is present, or
when no `)` exists at or after the `(`. Stated as: `extractToolCall`
(embedded from main.go) coincides with `extractorSpec` (written from the
claim's words), plus the spec's concrete test vectors. -/
theorem c4_extractor_follows_heuristic :
    (∀ r, extractToolCall r = (extractorSpec r).getD [])
    ∧ (∀ r, goContains r toolMarker = false → extractToolCall r = [])
    ∧ extractToolCall (("tool: x(1) and tool: read_file(\x7b\"path\":\"a.txt\"\x7d)").data)
        = ("read_file(\x7b\"path\":\"a.txt\"\x7d)").data
    ∧ extractToolCall (("tool: nothing to see").data) = []
    ∧ extractToolCall (("tool: f) oops(").data) = [] := by
  refine ⟨fun r => extractToolCall_eq_spec r,
    fun r h => extractToolCall_of_no_marker r h, by decide, by decide, by decide⟩

/-- Witness for C4 at a concrete marker-free input. -/
theorem c4_extractor_witness :
    goContains (("just some prose").data) toolMarker = false
    ∧ extractToolCall (("just some prose").data) = [] :=
  ⟨by decide, c4_extractor_follows_heuristic.2.1 (("just some prose").data) (by decide)⟩

/-- Embedding of `ToolDefinition` from main.go (lines 25-30), restricted
to the fields the Dispatcher uses. `Function` models the Go signature
`func(input json.RawMessage) (string, error)`: `Except.error e` stands
for a non-nil error whose rendered message is `e`. -/
structure ToolDefinition where
  Name : List Char
  Function : List Char → Except (List Char) (List Char)

/-- The canonical empty-object argument `\x7b\x7d` substituted for empty
argument text (main.go line 545). -/
def emptyObj : List Char := ("\x7b\x7d").data

def missingOpenMsg : List Char :=
  ("Error: Invalid tool call format. Missing ").data ++ apos ++ [openParen] ++ apos
    ++ (". Got: ").data

def missingCloseMsg : List Char :=
  ("Error: Invalid tool call format. Missing closing ").data ++ apos ++ [closeParen] ++ apos
    ++ (". Got: ").data

def toolNotFoundMsg (name : List Char) : List Char :=
  ("Error: Tool ").data ++ apos ++ name ++ apos ++ (" not found.").data

def invalidJsonMsg (args : List Char) : List Char :=
  ("Error: Tool arguments are not valid JSON: ").data ++ args

def execErrMsg (name e : List Char) : List Char :=
  ("Error executing tool ").data ++ apos ++ name ++ apos ++ (": ").data ++ e

/-- Embedding of `Agent.executeTool` from main.go (lines 511-566).
`jsonValid` is the validity oracle standing for the external stdlib
function `json.Valid`; the dispatch logic is independent of its
implementation. The registry scan takes the first name match, exactly as
the Go loop with `break` does. -/
def executeTool (jsonValid : List Char → Bool) (tools : List ToolDefinition)
    (toolCallInstruction : List Char) : List Char :=
  match goIndex toolCallInstruction [openParen] with
  | none => missingOpenMsg ++ toolCallInstruction
  | some idxOpenParen =>
      let toolName := goTrimSpace (toolCallInstruction.take idxOpenParen)
      match goLastIndex toolCallInstruction [closeParen] with
      | none => missingCloseMsg ++ toolCallInstruction
      | some idxCloseParen =>
          if idxCloseParen < idxOpenParen then missingCloseMsg ++ toolCallInstruction
          else
            let argsStr :=
              goTrimSpace ((toolCallInstruction.take idxCloseParen).drop (idxOpenParen + 1))
            match tools.find? (fun t => decide (t.Name = toolName)) with
            | none => toolNotFoundMsg toolName
            | some t =>
                let rawInput := if argsStr = [] then emptyObj else argsStr
                if argsStr ≠ [] ∧ jsonValid rawInput = false then invalidJsonMsg argsStr
                else
                  match t.Function rawInput with
                  | Except.error e => execErrMsg toolName e
                  | Except.ok r => r

theorem executeTool_after_parse (jsonValid : List Char → Bool)
    (tools : List ToolDefinition) (instr : List Char) (o c : Nat)
    (ho : goIndex instr [openParen] = some o)
    (hc : goLastIndex instr [closeParen] = some c)
    (hoc : ¬ c < o) :
    executeTool jsonValid tools instr =
      (match tools.find? (fun t => decide (t.Name = goTrimSpace (instr.take o))) with
       | none => toolNotFoundMsg (goTrimSpace (instr.take o))
       | some t =>
           if goTrimSpace ((instr.take c).drop (o + 1)) ≠ [] ∧
               jsonValid (if goTrimSpace ((instr.take c).drop (o + 1)) = [] then emptyObj
                 else goTrimSpace ((instr.take c).drop (o + 1))) = false then
             invalidJsonMsg (goTrimSpace ((instr.take c).drop (o + 1)))
           else
             match t.Function (if goTrimSpace ((instr.take c).drop (o + 1)) = [] then emptyObj
                 else goTrimSpace ((instr.take c).drop (o + 1))) with
             | Except.error e => execErrMsg (goTrimSpace (instr.take o)) e
             | Except.ok r => r) := by
  simp only [executeTool]
  rw [ho]
  dsimp only
  rw [hc]
  dsimp only
  rw [if_neg hoc]

/-- C5: for every parsed tool call the Dispatcher returns a string and
never propagates a hard failure (the model is a total function into
strings); a name absent from the registry yields exactly
`Error: Tool '<name>' not found.` — a result independent of every
registered executable, so none is invoked; non-empty argument text that
the JSON validity oracle rejects yields exactly
`Error: Tool arguments are not valid JSON: <rawArguments>`; an
executable returning an error yields exactly
`Error executing tool '<name>': <message>`; on success the tool's raw
result is returned unmodified. -/
theorem c5_dispatcher_failure_mapping (jsonValid : List Char → Bool)
    (tools : List ToolDefinition) (instr : List Char) (o c : Nat)
    (ho : goIndex instr [openParen] = some o)
    (hc : goLastIndex instr [closeParen] = some c)
    (hoc : ¬ c < o) :
    (tools.find? (fun t => decide (t.Name = goTrimSpace (instr.take o))) = none →
        executeTool jsonValid tools instr = toolNotFoundMsg (goTrimSpace (instr.take o)))
    ∧ (∀ t, tools.find? (fun t => decide (t.Name = goTrimSpace (instr.take o))) = some t →
        goTrimSpace ((instr.take c).drop (o + 1)) ≠ [] →
        jsonValid (goTrimSpace ((instr.take c).drop (o + 1))) = false →
        executeTool jsonValid tools instr
          = invalidJsonMsg (goTrimSpace ((instr.take c).drop (o + 1))))
    ∧ (∀ t e, tools.find? (fun t => decide (t.Name = goTrimSpace (instr.take o))) = some t →
        (goTrimSpace ((instr.take c).drop (o + 1)) = [] ∨
          jsonValid (if goTrimSpace ((instr.take c).drop (o + 1)) = [] then emptyObj
            else goTrimSpace ((instr.take c).drop (o + 1))) = true) →
        t.Function (if goTrimSpace ((instr.take c).drop (o + 1)) = [] then emptyObj
            else goTrimSpace ((instr.take c).drop (o + 1))) = Except.error e →
        executeTool jsonValid tools instr = execErrMsg (goTrimSpace (instr.take o)) e)
    ∧ (∀ t r, tools.find? (fun t => decide (t.Name = goTrimSpace (instr.take o))) = some t →
        (goTrimSpace ((instr.take c).drop (o + 1)) = [] ∨
          jsonValid (if goTrimSpace ((instr.take c).drop (o + 1)) = [] then emptyObj
            else goTrimSpace ((instr.take c).drop (o + 1))) = true) →
        t.Function (if goTrimSpace ((instr.take c).drop (o + 1)) = [] then emptyObj
            else goTrimSpace ((instr.take c).drop (o + 1))) = Except.ok r →
        executeTool jsonValid tools instr = r) := by
  have hmain := executeTool_after_parse jsonValid tools instr o c ho hc hoc
  refine ⟨?_, ?_, ?_, ?_⟩
  · intro hfind
    rw [hmain, hfind]
  · intro t hfind hne hval
    rw [hmain, hfind]
    dsimp only
    rw [if_pos ⟨hne, by rw [if_neg hne]; exact hval⟩]
  · intro t e hfind hok hfn
    rw [hmain, hfind]
    dsimp only
    have hguard : ¬ (goTrimSpace ((instr.take c).drop (o + 1)) ≠ [] ∧
        jsonValid (if goTrimSpace ((instr.take c).drop (o + 1)) = [] then emptyObj
          else goTrimSpace ((instr.take c).drop (o + 1))) = false) := by
      rcases hok with h | h
      · exact fun hx => hx.1 h
      · exact fun hx => by rw [h] at hx; exact Bool.noConfusion hx.2
    rw [if_neg hguard, hfn]
  · intro t r hfind hok hfn
    rw [hmain, hfind]
    dsimp only
    have hguard : ¬ (goTrimSpace ((instr.take c).drop (o + 1)) ≠ [] ∧
        jsonValid (if goTrimSpace ((instr.take c).drop (o + 1)) = [] then emptyObj
          else goTrimSpace ((instr.take c).drop (o + 1))) = false) := by
      rcases hok with h | h
      · exact fun hx => hx.1 h
      · exact fun hx => by rw [h] at hx; exact Bool.noConfusion hx.2
    rw [if_neg hguard, hfn]

/-- Witness for C5: a concrete unknown tool name yields exactly the
not-found string; the registry's executable is irrelevant. -/
theorem c5_dispatcher_witness :
    executeTool (fun _ => true)
      [ToolDefinition.mk (("read_file").data) (fun _ => Except.ok (("data").data))]
      (("nope(\x7b\x7d)").data)
      = toolNotFoundMsg (("nope").data) := by
  have h := (c5_dispatcher_failure_mapping (fun _ => true)
    [ToolDefinition.mk (("read_file").data) (fun _ => Except.ok (("data").data))]
    (("nope(\x7b\x7d)").data) 4 7 (by decide) (by decide) (by decide)).1 (by rfl)
  rw [h]
  decide

/-- C6: for every tool call whose (trimmed) argument text is empty, the
Dispatcher invokes the registered tool with the canonical empty-object
argument `\x7b\x7d` and never takes the invalid-JSON branch: the result is
exactly the tool's output on `emptyObj` (or its wrapped execution
error), not the `InvalidToolArguments` string. -/
theorem c6_empty_args_empty_object (jsonValid : List Char → Bool)
    (tools : List ToolDefinition) (instr : List Char) (o c : Nat)
    (ho : goIndex instr [openParen] = some o)
    (hc : goLastIndex instr [closeParen] = some c)
    (hoc : ¬ c < o)
    (hargs : goTrimSpace ((instr.take c).drop (o + 1)) = [])
    (t : ToolDefinition)
    (hfind : tools.find? (fun t => decide (t.Name = goTrimSpace (instr.take o))) = some t) :
    executeTool jsonValid tools instr =
      (match t.Function emptyObj with
       | Except.error e => execErrMsg (goTrimSpace (instr.take o)) e
       | Except.ok r => r) := by
  rw [executeTool_after_parse jsonValid tools instr o c ho hc hoc, hfind]
  dsimp only
  have hguard : ¬ (goTrimSpace ((instr.take c).drop (o + 1)) ≠ [] ∧
      jsonValid (if goTrimSpace ((instr.take c).drop (o + 1)) = [] then emptyObj
        else goTrimSpace ((instr.take c).drop (o + 1))) = false) :=
    fun hx => hx.1 hargs
  rw [if_neg hguard, if_pos hargs]

/-- Witness for C6 at a concrete no-argument call `list_files()`. -/
theorem c6_empty_args_witness :
    executeTool (fun _ => false)
      [ToolDefinition.mk (("list_files").data) (fun _ => Except.ok (("[]").data))]
      (("list_files()").data)
      = ("[]").data := by
  have h := c6_empty_args_empty_object (fun _ => false)
    [ToolDefinition.mk (("list_files").data) (fun _ => Except.ok (("[]").data))]
    (("list_files()").data) 10 11 (by decide) (by decide) (by decide) (by decide)
    (ToolDefinition.mk (("list_files").data) (fun _ => Except.ok (("[]").data))) (by rfl)
  rw [h]

/-- One line read from the backend stream, after the external JSON decode
boundary: `malformed raw` is a line `json.Unmarshal` rejects, `frag r d`
is a decoded `OllamaResponse\x7bResponse: r, Done: d\x7d`. -/
inductive StreamLine where
  | malformed (raw : List Char)
  | frag (resp : List Char) (done : Bool)
deriving DecidableEq

/-- Embedding of the stream-consumption loop of `Agent.runInference` in
main.go (lines 428-450): returns the accumulated response text and the
list of warning payloads (the trimmed unparseable lines). A malformed
line adds a warning and the loop continues; a `Done` fragment stops it;
end of input stops it. -/
def runInferenceStream : List StreamLine → List Char × List (List Char)
  | [] => ([], [])
  | StreamLine.malformed raw :: rest =>
      let out := runInferenceStream rest
      (out.1, goTrimSpace raw :: out.2)
  | StreamLine.frag r d :: rest =>
      if d then (r, [])
      else
        let out := runInferenceStream rest
        (r ++ out.1, out.2)

/-- Embedding of `processStream` from src/agent/ollama.go (lines 49-74):
returns the per-line token count, or an error as soon as a line fails to
decode. -/
def processStream : List StreamLine → Except (List Char) Nat
  | [] => Except.ok 0
  | StreamLine.malformed _ :: _ => Except.error (("error unmarshaling response").data)
  | StreamLine.frag _ d :: rest =>
      if d then Except.ok 1
      else (processStream rest).map (fun n => n + 1)

/-- Counterexample for C7: in `agent.processStream` (cited by the claim)
a single malformed record DOES fail the inference call — the whole
stream is aborted with an error instead of being skipped. -/
theorem c7_counterexample :
    processStream
        [StreamLine.malformed (("not json").data), StreamLine.frag (("ok").data) true]
      = Except.error (("error unmarshaling response").data)
    ∧ (runInferenceStream
        [StreamLine.malformed (("not json").data), StreamLine.frag (("ok").data) true]).1
      = ("ok").data := by
  exact ⟨rfl, rfl⟩

/-- C7 (amended): in the orchestration loop's stream consumer
(`Agent.runInference`, main.go), a record that fails to decode is
discarded with a non-fatal warning and consumption continues at the next
record — deleting a malformed record anywhere from the stream leaves the
accumulated response text unchanged, and (when no earlier record was
`Done`) the warning for it is emitted. -/
theorem c7_malformed_line_skipped (xs : List StreamLine) (raw : List Char)
    (ys : List StreamLine) :
    (runInferenceStream (xs ++ StreamLine.malformed raw :: ys)).1
        = (runInferenceStream (xs ++ ys)).1
    ∧ ((∀ r, StreamLine.frag r true ∉ xs) →
        goTrimSpace raw ∈ (runInferenceStream (xs ++ StreamLine.malformed raw :: ys)).2) := by
  induction xs with
  | nil => exact ⟨rfl, fun _ => List.mem_cons_self _ _⟩
  | cons x xs ih =>
      cases x with
      | malformed raw2 =>
          refine ⟨?_, fun hnd => ?_⟩
          · simpa [runInferenceStream] using ih.1
          · have := ih.2 (fun r hr => hnd r (List.mem_cons_of_mem _ hr))
            simpa [runInferenceStream] using List.mem_cons_of_mem _ this
      | frag r d =>
          cases d with
          | true =>
              refine ⟨by simp [runInferenceStream], fun hnd => ?_⟩
              exact absurd (List.mem_cons_self (StreamLine.frag r true) xs) (hnd r)
          | false =>
              refine ⟨?_, fun hnd => ?_⟩
              · simpa [runInferenceStream] using ih.1
              · have := ih.2 (fun r2 hr => hnd r2 (List.mem_cons_of_mem _ hr))
                simpa [runInferenceStream] using this

/-- Witness for C7's amended theorem at a concrete stream. -/
theorem c7_malformed_witness :
    (runInferenceStream
        [StreamLine.frag (("a").data) false, StreamLine.malformed (("oops").data),
          StreamLine.frag (("b").data) true]).1
      = (runInferenceStream
          [StreamLine.frag (("a").data) false, StreamLine.frag (("b").data) true]).1
    ∧ goTrimSpace (("oops").data) ∈
        (runInferenceStream
          [StreamLine.frag (("a").data) false, StreamLine.malformed (("oops").data),
            StreamLine.frag (("b").data) true]).2 := by
  have h := c7_malformed_line_skipped [StreamLine.frag (("a").data) false]
    (("oops").data) [StreamLine.frag (("b").data) true]
  exact ⟨h.1, h.2 (fun r hr => by simp at hr)⟩

/-- The `User: ` prefix prepended to user turns (main.go line 316). -/
def userTag : List Char := ("User: ").data

/-- The `Assistant: ` prefix prepended to assistant turns (main.go
lines 369 and 373). -/
def assistantTag : List Char := ("Assistant: ").data

/-- The ToolResult turn text `System: Tool <call> executed. Result: <r>`
(main.go line 370). -/
def systemTurn (call result : List Char) : List Char :=
  ("System: Tool ").data ++ call ++ (" executed. Result: ").data ++ result

/-- User-visible milestones of one pass of the `Agent.Run` loop.
`promptUser` is the `You: ` prompt that solicits input; `inferenceCall`
records the `prompt` payload handed to `runInference`; `statsLine`
records the token count and elapsed seconds printed by the `Stats:`
line (its third printed number is determined by these two as
`tokensPerSecond`). -/
inductive Event where
  | promptUser
  | inferenceCall (prompt : List Char)
  | errorReported (msg : List Char)
  | toolExecuted (call result : List Char)
  | statsLine (tokens : Nat) (secs : ℤ)
  | warnNoPrior
deriving DecidableEq

/-- The throughput figure printed as the third number of the stats line:
tokens divided by elapsed seconds (main.go line 388). -/
def tokensPerSecond (tokens : Nat) (secs : ℤ) : ℚ := (tokens : ℚ) / (secs : ℚ)

/-- The mutable state of `Agent.Run` (main.go lines 294-303): the
conversation history, the `readUserInput` flag, and the session-level
statistics accumulators. Timestamps are modelled as integer seconds. -/
structure AgentState where
  conversation : List (List Char)
  readUserInput : Bool
  sessionStartTime : ℤ
  sessionTotalTokens : Nat
  firstTokenReceivedInSession : Bool
deriving DecidableEq

/-- The zero state at the top of `Agent.Run`. -/
def initState : AgentState :=
  AgentState.mk [] true 0 0 false

/-- Result of one loop iteration: the successor state (`none` when the
loop breaks on end-of-input), the clock tick counter, the events
emitted, and whether an inference result was consumed. -/
structure StepOut where
  next : Option AgentState
  tick : Nat
  events : List Event
  consumedInference : Bool
deriving DecidableEq

/-- The part of a `Agent.Run` iteration from the session-timer update
through the inference call, tool handling, and statistics (main.go
lines 344-392). `conv1` is the conversation with the current turn
already appended; `clock` is the `time.Now` oracle, sampled at `tick`.
Events here exclude the caller-added `promptUser` / `inferenceCall`. -/
def stepInfer (tools : List ToolDefinition) (jsonValid : List Char → Bool)
    (s : AgentState) (conv1 : List (List Char))
    (infRes : Except (List Char) (List Char)) (clock : Nat → ℤ) (tick : Nat) :
    StepOut :=
  let sessionStart1 := if s.firstTokenReceivedInSession then s.sessionStartTime else clock tick
  let tick1 := if s.firstTokenReceivedInSession then tick else tick + 1
  match infRes with
  | Except.error e =>
      StepOut.mk
        (some (AgentState.mk conv1 true sessionStart1 s.sessionTotalTokens
          s.firstTokenReceivedInSession))
        tick1 [Event.errorReported e] true
  | Except.ok resp =>
      let toolCall := extractToolCall resp
      let conv2 :=
        if toolCall = [] then conv1 ++ [assistantTag ++ resp]
        else conv1 ++ [assistantTag ++ resp,
          systemTurn toolCall (executeTool jsonValid tools toolCall)]
      let evTool : List Event :=
        if toolCall = [] then []
        else [Event.toolExecuted toolCall (executeTool jsonValid tools toolCall)]
      let inferenceTokens := countFields resp
      let firstTok2 := s.firstTokenReceivedInSession || decide (0 < inferenceTokens)
      let total2 := s.sessionTotalTokens + inferenceTokens
      let d := clock tick1 - sessionStart1
      let evStats : List Event :=
        if firstTok2 && decide (0 < d) then [Event.statsLine total2 d]
        else []
      let tick2 := if firstTok2 then tick1 + 1 else tick1
      StepOut.mk
        (some (AgentState.mk conv2 (decide (toolCall = [])) sessionStart1 total2 firstTok2))
        tick2 (evTool ++ evStats) true

/-- One full iteration of the `Agent.Run` loop (main.go lines 305-393).
`input` is the value `getUserMessage` would return (`none` = end of
input), consulted only when `readUserInput` is set. -/
def step (tools : List ToolDefinition) (jsonValid : List Char → Bool)
    (s : AgentState) (input : Option (List Char))
    (infRes : Except (List Char) (List Char)) (clock : Nat → ℤ) (tick : Nat) :
    StepOut :=
  if s.readUserInput then
    match input with
    | none => StepOut.mk none tick [Event.promptUser] false
    | some u =>
        let out := stepInfer tools jsonValid s (s.conversation ++ [userTag ++ u])
          infRes clock tick
        StepOut.mk out.next out.tick
          (Event.promptUser :: Event.inferenceCall u :: out.events) out.consumedInference
  else
    if s.conversation = [] then
      StepOut.mk
        (some (AgentState.mk s.conversation true s.sessionStartTime s.sessionTotalTokens
          s.firstTokenReceivedInSession))
        tick [Event.warnNoPrior] false
    else
      let out := stepInfer tools jsonValid s s.conversation infRes clock tick
      StepOut.mk out.next out.tick
        (Event.inferenceCall (s.conversation.getLastD []) :: out.events) out.consumedInference

/-- A stand-in inference failure used when the oracle list runs dry;
never reached in the concrete scenarios below. -/
def backendDown : List Char := ("failed to make Ollama request").data

/-- Fuel-bounded interpreter of the `Agent.Run` loop over oracle lists of
user inputs and inference outcomes. Returns the final state and the
concatenated event trace. -/
def runLoop (tools : List ToolDefinition) (jsonValid : List Char → Bool)
    (clock : Nat → ℤ) :
    Nat → AgentState → Nat → List (List Char) →
      List (Except (List Char) (List Char)) → AgentState × List Event
  | 0, s, _, _, _ => (s, [])
  | Nat.succ fuel, s, tick, inputs, infs =>
      let input := if s.readUserInput then inputs.head? else none
      let inputs1 := if s.readUserInput then inputs.tail else inputs
      let infRes := infs.headD (Except.error backendDown)
      let out := step tools jsonValid s input infRes clock tick
      match out.next with
      | none => (s, out.events)
      | some s1 =>
          let infs1 := if out.consumedInference then infs.tail else infs
          let rest := runLoop tools jsonValid clock fuel s1 out.tick inputs1 infs1
          (rest.1, out.events ++ rest.2)

/-- Concrete stand-in for the `list_files` registry entry; its
`Function` abstracts the file-system effect, out of scope here. -/
def listFilesStub : ToolDefinition :=
  ToolDefinition.mk (("list_files").data) (fun _ => Except.ok (("[]").data))

/-- Concrete stand-in for the `read_file` registry entry. -/
def readFileStub : ToolDefinition :=
  ToolDefinition.mk (("read_file").data) (fun _ => Except.ok (("filedata").data))

theorem stepInfer_events_shape (tools : List ToolDefinition) (jsonValid : List Char → Bool)
    (s : AgentState) (conv1 : List (List Char)) (infRes : Except (List Char) (List Char))
    (clock : Nat → ℤ) (tick : Nat) :
    Event.promptUser ∉ (stepInfer tools jsonValid s conv1 infRes clock tick).events
    ∧ (∀ p, Event.inferenceCall p
        ∉ (stepInfer tools jsonValid s conv1 infRes clock tick).events) := by
  cases infRes with
  | error e => exact ⟨by simp [stepInfer], fun p => by simp [stepInfer]⟩
  | ok resp =>
      refine ⟨?_, fun p => ?_⟩ <;>
      · simp only [stepInfer]
        intro h
        rcases List.mem_append.mp h with h1 | h1 <;>
          revert h1 <;> split <;> simp

/-- C1 (amended): the prompt handed to the inference backend is the
latest turn only, not the full Conversation — after user input it is the
raw input text, and after a tool result it is the final conversation
entry (the ToolResult turn). -/
theorem c1_prompt_is_latest_turn_only :
    (∀ (tools : List ToolDefinition) (jsonValid : List Char → Bool) (s : AgentState)
        (u : List Char) (infRes : Except (List Char) (List Char)) (clock : Nat → ℤ)
        (tick : Nat) (p : List Char),
        s.readUserInput = true →
        Event.inferenceCall p ∈ (step tools jsonValid s (some u) infRes clock tick).events →
        p = u)
    ∧ (∀ (tools : List ToolDefinition) (jsonValid : List Char → Bool) (s : AgentState)
        (input : Option (List Char)) (infRes : Except (List Char) (List Char))
        (clock : Nat → ℤ) (tick : Nat) (p : List Char),
        s.readUserInput = false → s.conversation ≠ [] →
        Event.inferenceCall p ∈ (step tools jsonValid s input infRes clock tick).events →
        p = s.conversation.getLastD []) := by
  constructor
  · intro tools jsonValid s u infRes clock tick p h1 hmem
    simp only [step, h1, if_true] at hmem
    simp only [List.mem_cons] at hmem
    rcases hmem with h | h | h
    · cases h
    · exact (Event.inferenceCall.injEq _ _).mp h
    · exact absurd h ((stepInfer_events_shape tools jsonValid s _ infRes clock tick).2 p)
  · intro tools jsonValid s input infRes clock tick p h1 h2 hmem
    simp only [step, h1, Bool.false_eq_true, if_false, if_neg h2] at hmem
    simp only [List.mem_cons] at hmem
    rcases hmem with h | h
    · exact (Event.inferenceCall.injEq _ _).mp h
    · exact absurd h ((stepInfer_events_shape tools jsonValid s _ infRes clock tick).2 p)

/-- Witness for C1's amended theorem at a concrete input-mode step. -/
theorem c1_prompt_witness :
    initState.readUserInput = true ∧ (("q").data) = (("q").data) :=
  ⟨rfl, c1_prompt_is_latest_turn_only.1 [] (fun _ => true) initState (("q").data)
    (Except.ok (("r").data)) (fun _ => 0) 0 (("q").data) rfl (by decide)⟩

/-- Counterexample for C1 as stated: in a concrete tool-call cycle the
second transition into inference sends only the ToolResult turn — the
conversation at that point holds three turns, and the turn `User: hello
there` is not contained in the prompt, so the prompt is built from a
proper subset of the Conversation. -/
theorem c1_counterexample :
    (runLoop [listFilesStub] (fun _ => true) (fun n => (n : ℤ)) 2 initState 0
        [("hello there").data]
        [Except.ok (("tool: list_files()").data), Except.ok (("ok").data)]).2.get? 4
      = some (Event.inferenceCall (systemTurn (("list_files()").data) (("[]").data)))
    ∧ (runLoop [listFilesStub] (fun _ => true) (fun n => (n : ℤ)) 1 initState 0
        [("hello there").data] [Except.ok (("tool: list_files()").data)]).1.conversation
      = [userTag ++ ("hello there").data,
         assistantTag ++ ("tool: list_files()").data,
         systemTurn (("list_files()").data) (("[]").data)]
    ∧ goContains (systemTurn (("list_files()").data) (("[]").data))
        (userTag ++ ("hello there").data) = false := by
  exact ⟨by decide, by decide, by decide⟩

/-- C2 (code behaviour at the claimed failing input): entering the
literal `exit` does NOT terminate the session — the loop appends
`User: exit`, issues an inference call with prompt `exit`, and
continues; only end-of-input (`none`) terminates. -/
theorem c2_exit_not_honored :
    (step [] (fun _ => true) initState (some (("exit").data))
        (Except.ok (("ok").data)) (fun n => (n : ℤ)) 0).next
      = some (AgentState.mk
          [userTag ++ ("exit").data, assistantTag ++ ("ok").data] true 0 1 true)
    ∧ Event.inferenceCall (("exit").data) ∈
        (step [] (fun _ => true) initState (some (("exit").data))
          (Except.ok (("ok").data)) (fun n => (n : ℤ)) 0).events
    ∧ (step [] (fun _ => true) initState none
        (Except.ok (("ok").data)) (fun n => (n : ℤ)) 0).next = none := by
  exact ⟨by decide, by decide, by decide⟩

theorem stepInfer_stats_emission (tools : List ToolDefinition) (jsonValid : List Char → Bool)
    (s : AgentState) (conv1 : List (List Char)) (resp : List Char)
    (clock : Nat → ℤ) (tick : Nat) :
    ((s.firstTokenReceivedInSession || decide (0 < countFields resp)) = true →
      0 < clock (if s.firstTokenReceivedInSession then tick else tick + 1)
          - (if s.firstTokenReceivedInSession then s.sessionStartTime else clock tick) →
      Event.statsLine (s.sessionTotalTokens + countFields resp)
          (clock (if s.firstTokenReceivedInSession then tick else tick + 1)
            - (if s.firstTokenReceivedInSession then s.sessionStartTime else clock tick))
        ∈ (stepInfer tools jsonValid s conv1 (Except.ok resp) clock tick).events)
    ∧ (((s.firstTokenReceivedInSession || decide (0 < countFields resp)) = false ∨
        clock (if s.firstTokenReceivedInSession then tick else tick + 1)
          - (if s.firstTokenReceivedInSession then s.sessionStartTime else clock tick) ≤ 0) →
      ∀ a b, Event.statsLine a b
        ∉ (stepInfer tools jsonValid s conv1 (Except.ok resp) clock tick).events) := by
  constructor
  · intro hft hd
    simp only [stepInfer, List.mem_append]
    right
    rw [hft]
    simp only [Bool.true_and, decide_eq_true hd, if_pos rfl]
    simp
  · intro hcond a b
    simp only [stepInfer, List.mem_append, not_or]
    constructor
    · split <;> simp
    · rcases hcond with h | h
      · rw [h]
        simp
      · have : decide (0 < clock (if s.firstTokenReceivedInSession then tick else tick + 1)
            - (if s.firstTokenReceivedInSession then s.sessionStartTime else clock tick))
            = false := by
          simpa using not_lt.mpr h
        rw [this]
        simp

/-- Counterexample for C3 as stated: a completed inference exchange
(two tokens counted, state updated) for which elapsed seconds is 0 emits
NO statistics line at all — the line is omitted rather than printed with
a TPS of 0. -/
theorem c3_counterexample :
    (step [] (fun _ => true) initState (some (("hi").data))
        (Except.ok (("x y").data)) (fun _ => (0 : ℤ)) 0).events
      = [Event.promptUser, Event.inferenceCall (("hi").data)]
    ∧ (step [] (fun _ => true) initState (some (("hi").data))
        (Except.ok (("x y").data)) (fun _ => (0 : ℤ)) 0).next
      = some (AgentState.mk [userTag ++ ("hi").data, assistantTag ++ ("x y").data]
          true 0 2 true) := by
  exact ⟨by decide, by decide⟩

/-- C3 (amended): after a completed inference exchange the statistics
line `Stats: Total Tokens: <int>, Time: <float>s, TPS: <float>` is
emitted exactly when a token has been received in the session and the
elapsed seconds since the session timer start are positive; when emitted
it reports the cumulative token count and that elapsed time (its TPS
figure being `tokensPerSecond` of the two); when the elapsed time is 0
(or no token has arrived yet) the line is omitted entirely — which is
how a division fault is avoided — rather than reported with TPS 0. -/
theorem c3_stats_line_emission (tools : List ToolDefinition) (jsonValid : List Char → Bool)
    (s : AgentState) (input : Option (List Char)) (u resp : List Char)
    (clock : Nat → ℤ) (tick : Nat)
    (hmode : (s.readUserInput = true ∧ input = some u)
      ∨ (s.readUserInput = false ∧ s.conversation ≠ [])) :
    ((s.firstTokenReceivedInSession || decide (0 < countFields resp)) = true →
      0 < clock (if s.firstTokenReceivedInSession then tick else tick + 1)
          - (if s.firstTokenReceivedInSession then s.sessionStartTime else clock tick) →
      Event.statsLine (s.sessionTotalTokens + countFields resp)
          (clock (if s.firstTokenReceivedInSession then tick else tick + 1)
            - (if s.firstTokenReceivedInSession then s.sessionStartTime else clock tick))
        ∈ (step tools jsonValid s input (Except.ok resp) clock tick).events)
    ∧ (((s.firstTokenReceivedInSession || decide (0 < countFields resp)) = false ∨
        clock (if s.firstTokenReceivedInSession then tick else tick + 1)
          - (if s.firstTokenReceivedInSession then s.sessionStartTime else clock tick) ≤ 0) →
      ∀ a b, Event.statsLine a b
        ∉ (step tools jsonValid s input (Except.ok resp) clock tick).events)
    ∧ (∀ a b, (0:ℤ) < b → tokensPerSecond a b * (b : ℚ) = (a : ℚ)) := by
  have hstep : (step tools jsonValid s input (Except.ok resp) clock tick).events
      = (if s.readUserInput then Event.promptUser :: Event.inferenceCall u :: [] else
          [Event.inferenceCall (s.conversation.getLastD [])])
        ++ (stepInfer tools jsonValid s
            (if s.readUserInput then s.conversation ++ [userTag ++ u] else s.conversation)
            (Except.ok resp) clock tick).events := by
    rcases hmode with ⟨h1, h2⟩ | ⟨h1, h2⟩
    · subst h2
      simp [step, h1]
    · simp [step, h1, h2]
  refine ⟨?_, ?_, ?_⟩
  · intro hft hd
    rw [hstep]
    exact List.mem_append_right _
      ((stepInfer_stats_emission tools jsonValid s _ resp clock tick).1 hft hd)
  · intro hcond a b
    rw [hstep]
    intro hmem
    rcases List.mem_append.mp hmem with h | h
    · revert h
      split <;> simp
    · exact (stepInfer_stats_emission tools jsonValid s _ resp clock tick).2 hcond a b h
  · intro a b hb
    have hbq : (b : ℚ) ≠ 0 := by
      exact_mod_cast ne_of_gt hb
    rw [tokensPerSecond, div_mul_cancel₀ _ hbq]

/-- Witness for C3's amended theorem: at a concrete exchange with
positive elapsed time the line is emitted with the session totals. -/
theorem c3_stats_line_witness :
    Event.statsLine 2 1 ∈
      (step [] (fun _ => true) initState (some (("hi").data))
        (Except.ok (("x y").data)) (fun n => (n : ℤ)) 0).events :=
  (c3_stats_line_emission [] (fun _ => true) initState (some (("hi").data))
    (("hi").data) (("x y").data) (fun n => (n : ℤ)) 0
    (Or.inl ⟨rfl, rfl⟩)).1 (by decide) (by decide)

/-- C8: whenever the backend inference call fails, the error is reported
to the user-visible output, no Assistant turn — partial or otherwise —
is appended (in input mode only the already-appended `User:` turn is
new; in continuation mode the Conversation is unchanged), and the loop
returns to awaiting user input. -/
theorem c8_backend_failure_recovery (tools : List ToolDefinition)
    (jsonValid : List Char → Bool) (s : AgentState) (input : Option (List Char))
    (u e : List Char) (clock : Nat → ℤ) (tick : Nat)
    (hmode : (s.readUserInput = true ∧ input = some u)
      ∨ (s.readUserInput = false ∧ s.conversation ≠ [])) :
    ∃ s1, (step tools jsonValid s input (Except.error e) clock tick).next = some s1
      ∧ s1.conversation
          = s.conversation ++ (if s.readUserInput then [userTag ++ u] else [])
      ∧ s1.readUserInput = true
      ∧ s1.sessionTotalTokens = s.sessionTotalTokens
      ∧ Event.errorReported e
          ∈ (step tools jsonValid s input (Except.error e) clock tick).events := by
  rcases hmode with ⟨h1, h2⟩ | ⟨h1, h2⟩
  · subst h2
    refine ⟨AgentState.mk (s.conversation ++ [userTag ++ u]) true
        (if s.firstTokenReceivedInSession then s.sessionStartTime else clock tick)
        s.sessionTotalTokens s.firstTokenReceivedInSession, ?_, ?_, rfl, rfl, ?_⟩
    · simp [step, h1, stepInfer]
    · simp [h1]
    · simp [step, h1, stepInfer]
  · refine ⟨AgentState.mk s.conversation true
        (if s.firstTokenReceivedInSession then s.sessionStartTime else clock tick)
        s.sessionTotalTokens s.firstTokenReceivedInSession, ?_, ?_, rfl, rfl, ?_⟩
    · simp [step, h1, h2, stepInfer]
    · simp [h1]
    · simp [step, h1, h2, stepInfer]

/-- Witness for C8 at a concrete failing call. -/
theorem c8_backend_failure_witness :
    ∃ s1, (step [] (fun _ => true) initState (some (("hi").data))
        (Except.error (("connection refused").data)) (fun n => (n : ℤ)) 0).next = some s1
      ∧ s1.conversation
          = initState.conversation
            ++ (if initState.readUserInput then [userTag ++ ("hi").data] else [])
      ∧ s1.readUserInput = true
      ∧ s1.sessionTotalTokens = initState.sessionTotalTokens
      ∧ Event.errorReported (("connection refused").data)
          ∈ (step [] (fun _ => true) initState (some (("hi").data))
            (Except.error (("connection refused").data)) (fun n => (n : ℤ)) 0).events :=
  c8_backend_failure_recovery [] (fun _ => true) initState (some (("hi").data))
    (("hi").data) (("connection refused").data) (fun n => (n : ℤ)) 0 (Or.inl ⟨rfl, rfl⟩)

/-- C9: a tool-call cycle never solicits user input between the
ToolResult turn and the next inference call — a response containing a
tool call puts the loop into continuation mode, in which the next
iteration issues an inference call (with the last turn as prompt) and
never prompts the user; in the concrete one-tool cycle the Conversation
afterwards holds exactly User, Assistant(with call), ToolResult,
Assistant(final text), in that order, and the `You:` prompt occurs only
before the first call and after the final Assistant turn. -/
theorem c9_tool_cycle :
    (∀ (tools : List ToolDefinition) (jsonValid : List Char → Bool) (s : AgentState)
        (u resp : List Char) (clock : Nat → ℤ) (tick : Nat),
        s.readUserInput = true → extractToolCall resp ≠ [] →
        ((step tools jsonValid s (some u) (Except.ok resp) clock tick).next.map
          (fun s1 => s1.readUserInput)) = some false)
    ∧ (∀ (tools : List ToolDefinition) (jsonValid : List Char → Bool) (s : AgentState)
        (input : Option (List Char)) (infRes : Except (List Char) (List Char))
        (clock : Nat → ℤ) (tick : Nat),
        s.readUserInput = false → s.conversation ≠ [] →
        Event.promptUser ∉ (step tools jsonValid s input infRes clock tick).events
        ∧ Event.inferenceCall (s.conversation.getLastD [])
            ∈ (step tools jsonValid s input infRes clock tick).events)
    ∧ (runLoop [readFileStub] (fun _ => true) (fun n => (n : ℤ)) 3 initState 0
        [("hi").data]
        [Except.ok (("tool: read_file(\x7b\"path\":\"a.txt\"\x7d)").data),
          Except.ok (("done.").data)]).1.conversation
      = [userTag ++ ("hi").data,
         assistantTag ++ ("tool: read_file(\x7b\"path\":\"a.txt\"\x7d)").data,
         systemTurn (("read_file(\x7b\"path\":\"a.txt\"\x7d)").data) (("filedata").data),
         assistantTag ++ ("done.").data]
    ∧ (runLoop [readFileStub] (fun _ => true) (fun n => (n : ℤ)) 3 initState 0
        [("hi").data]
        [Except.ok (("tool: read_file(\x7b\"path\":\"a.txt\"\x7d)").data),
          Except.ok (("done.").data)]).2
      = [Event.promptUser, Event.inferenceCall (("hi").data),
         Event.toolExecuted (("read_file(\x7b\"path\":\"a.txt\"\x7d)").data)
           (("filedata").data),
         Event.statsLine 2 1,
         Event.inferenceCall
           (systemTurn (("read_file(\x7b\"path\":\"a.txt\"\x7d)").data) (("filedata").data)),
         Event.statsLine 3 2,
         Event.promptUser] := by
  refine ⟨?_, ?_, by decide, by decide⟩
  · intro tools jsonValid s u resp clock tick h1 hcall
    simp [step, h1, stepInfer, hcall]
  · intro tools jsonValid s input infRes clock tick h1 h2
    constructor
    · simp only [step, h1, Bool.false_eq_true, if_false, if_neg h2]
      intro hmem
      rcases List.mem_cons.mp hmem with h | h
      · cases h
      · exact absurd h ((stepInfer_events_shape tools jsonValid s _ infRes clock tick).1)
    · simp only [step, h1, Bool.false_eq_true, if_false, if_neg h2]
      exact List.mem_cons_self _ _

/-- Witness for C9's universally quantified parts at a concrete
tool-call response. -/
theorem c9_tool_cycle_witness :
    extractToolCall (("tool: f(1)").data) ≠ []
    ∧ ((step [] (fun _ => true) initState (some (("go").data))
        (Except.ok (("tool: f(1)").data)) (fun n => (n : ℤ)) 0).next.map
          (fun s1 => s1.readUserInput)) = some false :=
  ⟨by decide, c9_tool_cycle.1 [] (fun _ => true) initState (("go").data)
    (("tool: f(1)").data) (fun n => (n : ℤ)) 0 rfl (by decide)⟩

theorem stepInfer_statsLine_values (tools : List ToolDefinition)
    (jsonValid : List Char → Bool) (s : AgentState) (conv1 : List (List Char))
    (resp : List Char) (clock : Nat → ℤ) (tick : Nat) :
    ∀ a b, Event.statsLine a b
        ∈ (stepInfer tools jsonValid s conv1 (Except.ok resp) clock tick).events →
      a = s.sessionTotalTokens + countFields resp
      ∧ b = clock (if s.firstTokenReceivedInSession then tick else tick + 1)
          - (if s.firstTokenReceivedInSession then s.sessionStartTime else clock tick) := by
  intro a b hmem
  simp only [stepInfer, List.mem_append] at hmem
  rcases hmem with h | h
  · revert h
    split <;> simp
  · simp at h
    exact h.2

/-- Counterexample for C10 as stated: with an empty first assistant
response, the session clock is re-anchored — the stats line after the
second exchange reports elapsed time 1 (measured from the start of the
second inference, at time 1), whereas the session's first inference
started at time 0 and the stats were taken at time 2, so the claimed
"measured from the start of the session's first inference" value would
be 2 - 0 = 2 ≠ 1. -/
theorem c10_counterexample :
    (runLoop [] (fun _ => true) (fun n => (n : ℤ)) 3 initState 0
        [("a").data, ("b").data]
        [Except.ok (("").data), Except.ok (("x y").data)]).2
      = [Event.promptUser, Event.inferenceCall (("a").data), Event.promptUser,
         Event.inferenceCall (("b").data), Event.statsLine 2 1, Event.promptUser]
    ∧ (1 : ℤ) ≠ (2 : ℤ) - (0 : ℤ) := by
  exact ⟨by decide, by decide⟩

/-- C10 (amended): the statistics are session-cumulative — each
completed exchange adds the response's whitespace-delimited word count
to a session total, the timer anchor is the `time.Now` sampled at the
start of the first inference that produced at least one token (it is
re-sampled each iteration until then), and the printed line reports the
cumulative total and the elapsed time from that anchor, so its TPS
figure (`tokensPerSecond` of the two) is a session average rather than
the throughput of the exchange just completed. -/
theorem c10_session_cumulative_stats (tools : List ToolDefinition)
    (jsonValid : List Char → Bool) (s : AgentState) (input : Option (List Char))
    (u resp : List Char) (clock : Nat → ℤ) (tick : Nat)
    (hmode : (s.readUserInput = true ∧ input = some u)
      ∨ (s.readUserInput = false ∧ s.conversation ≠ [])) :
    ((step tools jsonValid s input (Except.ok resp) clock tick).next.map
        (fun s1 => s1.sessionTotalTokens)) = some (s.sessionTotalTokens + countFields resp)
    ∧ ((step tools jsonValid s input (Except.ok resp) clock tick).next.map
        (fun s1 => s1.sessionStartTime))
      = some (if s.firstTokenReceivedInSession then s.sessionStartTime else clock tick)
    ∧ ((step tools jsonValid s input (Except.ok resp) clock tick).next.map
        (fun s1 => s1.firstTokenReceivedInSession))
      = some (s.firstTokenReceivedInSession || decide (0 < countFields resp))
    ∧ (∀ a b, Event.statsLine a b
          ∈ (step tools jsonValid s input (Except.ok resp) clock tick).events →
        a = s.sessionTotalTokens + countFields resp
        ∧ b = clock (if s.firstTokenReceivedInSession then tick else tick + 1)
            - (if s.firstTokenReceivedInSession then s.sessionStartTime else clock tick)) := by
  have hvals : ∀ a b, Event.statsLine a b
      ∈ (step tools jsonValid s input (Except.ok resp) clock tick).events →
      a = s.sessionTotalTokens + countFields resp
      ∧ b = clock (if s.firstTokenReceivedInSession then tick else tick + 1)
          - (if s.firstTokenReceivedInSession then s.sessionStartTime else clock tick) := by
    intro a b hmem
    rcases hmode with ⟨h1, h2⟩ | ⟨h1, h2⟩
    · subst h2
      simp only [step, h1, if_true, List.mem_cons] at hmem
      rcases hmem with h | h | h
      · cases h
      · cases h
      · exact stepInfer_statsLine_values tools jsonValid s _ resp clock tick a b h
    · simp only [step, h1, Bool.false_eq_true, if_false, if_neg h2, List.mem_cons] at hmem
      rcases hmem with h | h
      · cases h
      · exact stepInfer_statsLine_values tools jsonValid s _ resp clock tick a b h
  rcases hmode with ⟨h1, h2⟩ | ⟨h1, h2⟩
  · subst h2
    exact ⟨by simp [step, h1, stepInfer], by simp [step, h1, stepInfer],
      by simp [step, h1, stepInfer], hvals⟩
  · exact ⟨by simp [step, h1, h2, stepInfer], by simp [step, h1, h2, stepInfer],
      by simp [step, h1, h2, stepInfer], hvals⟩

/-- Witness for C10's amended theorem at a concrete exchange. -/
theorem c10_session_stats_witness :
    ((step [] (fun _ => true) initState (some (("hi").data))
        (Except.ok (("x y z").data)) (fun n => (n : ℤ)) 0).next.map
      (fun s1 => s1.sessionTotalTokens))
      = some (initState.sessionTotalTokens + countFields (("x y z").data)) :=
  (c10_session_cumulative_stats [] (fun _ => true) initState (some (("hi").data))
    (("hi").data) (("x y z").data) (fun n => (n : ℤ)) 0 (Or.inl ⟨rfl, rfl⟩)).1
